import Mathlib

/-!
# Verification of the agent-memcp semantic memory store

A shallow embedding of the core of `src/storage/sqlite-backend.ts` and
`src/embedding.ts`:

* the SQLite `memories` table is a `List MemoryRow` (rows in rowid /
  insertion order);
* ISO-8601 timestamp strings (which compare lexicographically in
  chronological order) are modelled as natural numbers, with the clock
  value `now` passed explicitly to `store`;
* `Float32Array` vectors are `List ℚ` (every float value is a rational;
  arithmetic is idealised as exact), and the real-valued
  `cosineSimilarity` score lives in `ℝ` because of the square roots;
* the external embedding model is a parameter `embed : String → List ℚ`;
* SQL statements are translated one by one: `SELECT ... WHERE scope = ?`
  is a filter, `ORDER BY updated_at DESC` is a stable descending sort on
  `updated_at`, `UPDATE ... WHERE id = ?` maps over all rows with that
  id, `INSERT` appends, and the JavaScript `Array.prototype.sort` with
  comparator `(a, b) => b.score - a.score` (stable per ES2019 / V8) is a
  stable descending sort on the score.
-/

/-- The row shape of the `memories` table (`MemoryRow` in
`sqlite-backend.ts`).  `tags` keeps the deserialised JSON array,
`embedding` the deserialised `Float32Array` blob. -/
structure MemoryRow where
  id : String
  scope : String
  key : Option String
  content : String
  tags : List String
  embedding : Option (List ℚ)
  created_at : ℕ
  updated_at : ℕ
  deriving DecidableEq, Repr

/-- The public `MemoryEntry` shape (`src/types.ts`); note it carries no
scope field — `rowToEntry` drops it. -/
structure MemoryEntry where
  id : String
  key : Option String
  content : String
  tags : List String
  createdAt : ℕ
  updatedAt : ℕ
  deriving DecidableEq, Repr

/-- Model of `normaliseScope` from `sqlite-backend.ts`: `null`/`undefined`/`""`
become `"global"`, everything else (including the wildcard) is passed
through unchanged. -/
def normaliseScope : Option String → String
  | none => "global"
  | some s => if s = "" then "global" else s

/-- Model of `rowToEntry` from `sqlite-backend.ts`. -/
def rowToEntry (r : MemoryRow) : MemoryEntry :=
  { id := r.id
    key := r.key
    content := r.content
    tags := r.tags
    createdAt := r.created_at
    updatedAt := r.updated_at }

/-- Per-character lowercase, modelling both the JavaScript
`String.prototype.toLowerCase` and the SQLite `lower()` function
(stated via the character list of the string so the kernel can
evaluate it). -/
def strLower (s : String) : String := String.mk (s.data.map Char.toLower)

/-- Model of `hasAllTags` from `sqlite-backend.ts`: an empty filter matches
everything, otherwise every filter tag must occur (case-insensitively)
among the tags of the entry. -/
def hasAllTags (entryTags filterTags : List String) : Bool :=
  if filterTags = [] then true
  else filterTags.all fun t => (entryTags.map strLower).contains (strLower t)

/-- The single loop of `cosineSimilarity` in `embedding.ts`, computing
`(dot, normA, normB)`.  The source iterates `i` over the indices of `a` and
reads `b[i]` positionally; callers guarantee equal lengths, under which
the simultaneous recursion coincides with the loop. -/
def dotSums : List ℚ → List ℚ → ℚ × ℚ × ℚ
  | [], _ => (0, 0, 0)
  | _ :: _, [] => (0, 0, 0)
  | x :: xs, y :: ys =>
    let t := dotSums xs ys
    (t.1 + x * y, t.2.1 + x * x, t.2.2 + y * y)

/-- Model of `cosineSimilarity` from `embedding.ts`:
`denom = sqrt(normA) * sqrt(normB)`, returning `0` when `denom === 0`
and `dot / denom` otherwise. -/
noncomputable def cosineSimilarity (a b : List ℚ) : ℝ :=
  let t := dotSums a b
  let denom : ℝ := Real.sqrt (t.2.1 : ℝ) * Real.sqrt (t.2.2 : ℝ)
  if denom = 0 then 0 else (t.1 : ℝ) / denom

/-- Squared L2 norm of a vector (for stating the zero-norm clause). -/
def l2normSq (v : List ℚ) : ℚ := (v.map fun x => x * x).sum

/-- Model of `ORDER BY updated_at DESC`: a stable descending sort on
`updated_at` (descending lexicographic order on the ISO strings). -/
def byUpdatedDesc (r s : MemoryRow) : Prop := s.updated_at ≤ r.updated_at

instance : DecidableRel byUpdatedDesc := fun r s =>
  inferInstanceAs (Decidable (s.updated_at ≤ r.updated_at))

instance : IsTotal MemoryRow byUpdatedDesc := ⟨fun a b => le_total b.updated_at a.updated_at⟩

instance : IsTrans MemoryRow byUpdatedDesc := ⟨fun _ _ _ h1 h2 => le_trans h2 h1⟩

/-- The candidate fetch shared by `retrieve` and `list`:
`SELECT * FROM memories [WHERE scope = ?] ORDER BY updated_at DESC`,
with the `WHERE` clause omitted exactly when the raw scope is `"*"`. -/
def candidateRows (db : List MemoryRow) (scope : Option String) : List MemoryRow :=
  if scope = some "*" then List.insertionSort byUpdatedDesc db
  else List.insertionSort byUpdatedDesc
    (db.filter fun r => r.scope = normaliseScope scope)

/-- The descending-score comparator used in the `retrieve` call
`scored.sort((a, b) => b.score - a.score)`. -/
def scoreDesc (p q : MemoryEntry × ℝ) : Prop := q.2 ≤ p.2

noncomputable instance : DecidableRel scoreDesc := fun p q =>
  inferInstanceAs (Decidable (q.2 ≤ p.2))

instance : IsTotal (MemoryEntry × ℝ) scoreDesc := ⟨fun a b => le_total b.2 a.2⟩

instance : IsTrans (MemoryEntry × ℝ) scoreDesc := ⟨fun _ _ _ h1 h2 => le_trans h2 h1⟩

/-- The scoring loop of `retrieve`: each candidate row is dropped if it
fails the tag filter or has no embedding, otherwise paired with its
cosine similarity to the query vector. -/
noncomputable def scoredCandidates (db : List MemoryRow) (scope : Option String)
    (query : String) (tags : List String) (embed : String → List ℚ) :
    List (MemoryEntry × ℝ) :=
  (candidateRows db scope).filterMap fun row =>
    if hasAllTags row.tags tags then
      match row.embedding with
      | none => none
      | some vec => some (rowToEntry row, cosineSimilarity (embed query) vec)
    else none

/-- Model of `SqliteBackend.retrieve`: fetch candidates, tag-filter, skip legacy
rows, score, sort by descending similarity (stably), take `limit`. -/
noncomputable def retrieve (db : List MemoryRow) (scope : Option String)
    (query : String) (tags : List String) (limit : ℕ)
    (embed : String → List ℚ) : List MemoryEntry :=
  (((scoredCandidates db scope query tags embed).insertionSort scoreDesc).take limit).map
    fun s => s.1

/-- Model of `SqliteBackend.list`: same candidate fetch, tag filter only, no
scoring. -/
def list (db : List MemoryRow) (scope : Option String) (tags : List String) :
    List MemoryEntry :=
  let rows := candidateRows db scope
  if tags = [] then rows.map rowToEntry
  else (rows.filter fun r => hasAllTags r.tags tags).map rowToEntry

/-- The upsert lookup condition of `store`:
`WHERE scope = ? AND lower(key) = lower(?)`.  SQL `lower(NULL)` is
`NULL`, which never compares equal, so rows with a `NULL` key never
match. -/
def keyMatch (scopeStr k : String) (r : MemoryRow) : Prop :=
  r.scope = scopeStr ∧ r.key.map strLower = some (strLower k)

instance (scopeStr k : String) : DecidablePred (keyMatch scopeStr k) := fun r =>
  inferInstanceAs (Decidable (r.scope = scopeStr ∧ r.key.map strLower = some (strLower k)))

/-- Model of `SqliteBackend.store`.  `now` is the clock (`new Date().toISOString()`),
`embed` the embedding service.  Following JavaScript truthiness,
`if (entry.key)` takes the upsert path only for a present, non-empty key;
the lookup is `WHERE scope = ? AND lower(key) = lower(?)` (SQL `lower(NULL)`
is `NULL` and never equal), the update is `WHERE id = ?`. -/
def storeSt (db : List MemoryRow) (scope : Option String) (id : String)
    (key : Option String) (content : String) (tags : List String) (now : ℕ)
    (embed : String → List ℚ) : List MemoryRow × MemoryEntry :=
  let scopeStr := normaliseScope scope
  let vec := embed content
  let ins : List MemoryRow × MemoryEntry :=
    (db ++ [{ id := id, scope := scopeStr, key := key, content := content,
              tags := tags, embedding := some vec, created_at := now,
              updated_at := now }],
     { id := id, key := key, content := content, tags := tags,
       createdAt := now, updatedAt := now })
  match key with
  | none => ins
  | some k =>
    if k = "" then ins
    else
      match db.find? (fun r => keyMatch scopeStr k r) with
      | none => ins
      | some ex =>
        (db.map fun r =>
          if r.id = ex.id then
            { r with key := some k, content := content, tags := tags,
                     embedding := some vec, updated_at := now }
          else r,
         rowToEntry { ex with key := some k, content := content, tags := tags,
                              embedding := some vec, updated_at := now })

/-- Model of `SqliteBackend.delete`: `DELETE FROM memories WHERE scope = ? AND id = ?`,
returning whether any row was removed. -/
def deleteSt (db : List MemoryRow) (scope : Option String) (id : String) :
    List MemoryRow × Bool :=
  let s := normaliseScope scope
  (db.filter fun r => ¬(r.scope = s ∧ r.id = id),
   0 < db.countP fun r => r.scope = s ∧ r.id = id)

/-- Model of `SqliteBackend.renameProject`: count rows under `oldName` (`false`
when zero), count rows under `newName` (throw on conflict), else
`UPDATE memories SET scope = ? WHERE scope = ?` in one statement.  The
table component of the result is the state after the call (unchanged on
the `false` and error paths, which issue no write). -/
def renameProject (db : List MemoryRow) (oldName newName : String) :
    List MemoryRow × Except String Bool :=
  if db.countP (fun r => r.scope = oldName) = 0 then (db, .ok false)
  else if 0 < db.countP (fun r => r.scope = newName) then
    (db, .error ("Project \"" ++ newName ++ "\" already exists"))
  else
    (db.map fun r => if r.scope = oldName then { r with scope := newName } else r,
     .ok true)

/-- State-passing form of `retrieve` (its SQL is `SELECT`-only, so the
table is returned unchanged). -/
noncomputable def retrieveSt (db : List MemoryRow) (scope : Option String)
    (query : String) (tags : List String) (limit : ℕ)
    (embed : String → List ℚ) : List MemoryRow × List MemoryEntry :=
  (db, retrieve db scope query tags limit embed)

/-- State-passing form of `list` (its SQL is `SELECT`-only). -/
def listSt (db : List MemoryRow) (scope : Option String) (tags : List String) :
    List MemoryRow × List MemoryEntry :=
  (db, list db scope tags)

/-- The zod validation of the `limit` argument in
`src/tools/retrieve.ts`: `z.number().int().positive().max(100)
.optional().default(20)` — absent means `20`, present values are
accepted iff `1 ≤ n ≤ 100`. -/
def retrieveLimitValid : Option ℕ → Option ℕ
  | none => some 20
  | some n => if 1 ≤ n ∧ n ≤ 100 then some n else none

/- ─── Concrete rows used in counterexamples and bug evaluations ─────────── -/

/-- A single row living in the `"global"` bucket. -/
def globalRow : MemoryRow :=
  { id := "m1", scope := "global", key := none, content := "note", tags := [],
    embedding := none, created_at := 1, updated_at := 1 }

/-- A single row living in project scope `"a"`. -/
def projRow : MemoryRow :=
  { id := "m2", scope := "a", key := none, content := "note", tags := [],
    embedding := none, created_at := 1, updated_at := 1 }

/- ─── C1 ────────────────────────────────────────────────────────────────── -/

/-- C1: the spec says a store whose scope is the wildcard `"*"` is
rejected with an InvalidArgument-style failure before any store access.
The code has no such guard anywhere (`normaliseScope` passes `"*"`
through, `SqliteBackend.store` validates nothing, and the tool-layer
schema is a plain optional string), even though the `Scope` doc comment
in `src/types.ts` declares `"*"` to be for read operations only.  This
theorem evaluates the code at the failing input: a store against scope
`"*"` on an empty table succeeds and inserts a row whose scope is the
wildcard sentinel. -/
theorem store_wildcard_write_succeeds :
    normaliseScope (some "*") = "*" ∧
    storeSt [] (some "*") "m1" none "note" [] 5 (fun _ => [1]) =
      ([{ id := "m1", scope := "*", key := none, content := "note", tags := [],
          embedding := some [1], created_at := 5, updated_at := 5 }],
       { id := "m1", key := none, content := "note", tags := [],
         createdAt := 5, updatedAt := 5 }) :=
  ⟨rfl, rfl⟩

/- ─── C4 ────────────────────────────────────────────────────────────────── -/

/-- C4: the spec says neither the wildcard sentinel `"*"` nor the
reserved name `"global"` is ever a valid rename source or target.
`SqliteBackend.renameProject` contains no such check — it only tests
whether `oldName` has rows and `newName` has none.  Evaluating the code:
renaming the non-empty global bucket to a fresh project name succeeds
and moves the row, and renaming a project onto the literal scope `"*"`
succeeds and stamps the wildcard sentinel onto its rows. -/
theorem renameProject_reserved_names_not_rejected :
    renameProject [globalRow] "global" "p" =
      ([{ globalRow with scope := "p" }], .ok true) ∧
    renameProject [projRow] "a" "*" =
      ([{ projRow with scope := "*" }], .ok true) ∧
    renameProject [projRow] "a" "global" =
      ([{ projRow with scope := "global" }], .ok true) :=
  ⟨rfl, rfl, rfl⟩

/- ─── C10 ───────────────────────────────────────────────────────────────── -/

/-- C10: `retrieve` and `list` issue only `SELECT` statements (their
state-passing model forms return the table unchanged); only `store`,
`delete` and `renameProject` contain `INSERT`/`UPDATE`/`DELETE`.  Hence
every read call leaves the stored rows exactly as they were. -/
theorem reads_leave_table_unchanged (db : List MemoryRow)
    (scope scope2 : Option String) (query : String) (tags tags2 : List String)
    (limit : ℕ) (embed : String → List ℚ) :
    (retrieveSt db scope query tags limit embed).1 = db ∧
    (listSt db scope2 tags2).1 = db :=
  ⟨rfl, rfl⟩

/- ─── C3 ────────────────────────────────────────────────────────────────── -/

/-- C3: `renameProject` returns `false` when no row exists under
`oldName`; it fails with a Conflict error — mutating nothing — when any
row exists under `newName`; otherwise it moves every row of `oldName`
to `newName` in its single `UPDATE` and returns `true` (afterwards no
row is left under `oldName`, rows of other scopes are untouched, and
the row count is preserved). -/
theorem renameProject_semantics (db : List MemoryRow) (oldName newName : String) :
    ((∀ r ∈ db, r.scope ≠ oldName) →
      renameProject db oldName newName = (db, .ok false)) ∧
    ((∃ r ∈ db, r.scope = oldName) → (∃ r ∈ db, r.scope = newName) →
      renameProject db oldName newName =
        (db, .error ("Project \"" ++ newName ++ "\" already exists"))) ∧
    ((∃ r ∈ db, r.scope = oldName) → (∀ r ∈ db, r.scope ≠ newName) →
      (renameProject db oldName newName).2 = .ok true ∧
      (renameProject db oldName newName).1.length = db.length ∧
      (∀ r ∈ db, r.scope = oldName →
        { r with scope := newName } ∈ (renameProject db oldName newName).1) ∧
      (∀ r ∈ db, r.scope ≠ oldName → r ∈ (renameProject db oldName newName).1) ∧
      (∀ r ∈ (renameProject db oldName newName).1, r.scope ≠ oldName)) := by
  refine ⟨?_, ?_, ?_⟩
  · intro h
    have hc : db.countP (fun r => r.scope = oldName) = 0 := by
      rw [List.countP_eq_zero]
      intro a ha
      simpa using h a ha
    simp [renameProject, hc]
  · rintro ⟨r, hr, hrs⟩ ⟨s, hs, hss⟩
    have hc : ¬ db.countP (fun r => r.scope = oldName) = 0 := by
      have : 0 < db.countP (fun r => r.scope = oldName) :=
        List.countP_pos_iff.mpr ⟨r, hr, by simpa using hrs⟩
      omega
    have hc2 : 0 < db.countP (fun r => r.scope = newName) :=
      List.countP_pos_iff.mpr ⟨s, hs, by simpa using hss⟩
    simp [renameProject, hc, hc2]
  · rintro ⟨r, hr, hrs⟩ h2
    have hc : ¬ db.countP (fun r => r.scope = oldName) = 0 := by
      have : 0 < db.countP (fun r => r.scope = oldName) :=
        List.countP_pos_iff.mpr ⟨r, hr, by simpa using hrs⟩
      omega
    have hc2 : ¬ 0 < db.countP (fun r => r.scope = newName) := by
      have : db.countP (fun r => r.scope = newName) = 0 := by
        rw [List.countP_eq_zero]
        intro a ha
        simpa using h2 a ha
      omega
    have hne : newName ≠ oldName := by
      intro h
      exact h2 r hr (by rw [h]; exact hrs)
    have hres : renameProject db oldName newName =
        (db.map fun t => if t.scope = oldName then { t with scope := newName } else t,
         .ok true) := by
      simp [renameProject, hc, hc2]
    rw [hres]
    refine ⟨rfl, by simp, ?_, ?_, ?_⟩
    · intro t ht hts
      exact List.mem_map.mpr ⟨t, ht, by simp [hts]⟩
    · intro t ht hts
      exact List.mem_map.mpr ⟨t, ht, by simp [hts]⟩
    · intro t ht
      rcases List.mem_map.mp ht with ⟨a, _, rfl⟩
      by_cases has : a.scope = oldName
      · simp [has, hne]
      · simp [has]

/-- Witness for C3: each of the three branches exercised on concrete
one- and two-row tables. -/
theorem renameProject_semantics_witness :
    renameProject [projRow] "x" "b" = ([projRow], .ok false) ∧
    renameProject [projRow, globalRow] "a" "global" =
      ([projRow, globalRow], .error ("Project \"" ++ "global" ++ "\" already exists")) ∧
    ((renameProject [projRow] "a" "b").2 = .ok true ∧
      (renameProject [projRow] "a" "b").1.length = [projRow].length ∧
      (∀ r ∈ [projRow], r.scope = "a" →
        { r with scope := "b" } ∈ (renameProject [projRow] "a" "b").1) ∧
      (∀ r ∈ [projRow], r.scope ≠ "a" → r ∈ (renameProject [projRow] "a" "b").1) ∧
      (∀ r ∈ (renameProject [projRow] "a" "b").1, r.scope ≠ "a")) :=
  ⟨(renameProject_semantics [projRow] "x" "b").1 (by decide),
   (renameProject_semantics [projRow, globalRow] "a" "global").2.1
     ⟨projRow, by simp, rfl⟩ ⟨globalRow, by simp, rfl⟩,
   (renameProject_semantics [projRow] "a" "b").2.2
     ⟨projRow, by simp, rfl⟩ (by decide)⟩


/- ─── C2 ────────────────────────────────────────────────────────────────── -/

/-- The in-place mutation applied by the `UPDATE` of `store`:
`SET key = ?, content = ?, tags = ?, embedding = ?, updated_at = ?` —
`id`, `scope` and `created_at` are not in the `SET` list. -/
def updatedRow (r : MemoryRow) (k content : String) (tags : List String)
    (vec : List ℚ) (now : ℕ) : MemoryRow :=
  { r with key := some k, content := content, tags := tags,
           embedding := some vec, updated_at := now }

/-- C2: upsert semantics of `store`.  Given the per-scope key-uniqueness
invariant (every row matching `(scope, lower(key))` is the row the
lookup found) and primary-key uniqueness of ids, a store with a
non-empty key that finds an existing row mutates it in place: the table
keeps its length, exactly one row matches `(scope, key)` afterwards,
that row keeps the `id`, `created_at` and `scope` of `ex` while `content`,
`tags`, `embedding` and `updated_at` are replaced, all other rows are
untouched, and the returned entry carries the old `id`/`createdAt` and
the new `content`/`tags`/`updatedAt`. -/
theorem store_upsert_semantics (db : List MemoryRow) (scope : Option String)
    (newId k content : String) (tags : List String) (now : ℕ)
    (embed : String → List ℚ) (ex : MemoryRow)
    (hk : k ≠ "")
    (hfind : db.find? (fun r => keyMatch (normaliseScope scope) k r) = some ex)
    (huniq : ∀ r ∈ db, keyMatch (normaliseScope scope) k r → r = ex)
    (hids : (db.map MemoryRow.id).Nodup) :
    (storeSt db scope newId (some k) content tags now embed).1.length = db.length ∧
    (storeSt db scope newId (some k) content tags now embed).1.countP
      (fun r => keyMatch (normaliseScope scope) k r) = 1 ∧
    updatedRow ex k content tags (embed content) now ∈
      (storeSt db scope newId (some k) content tags now embed).1 ∧
    ((updatedRow ex k content tags (embed content) now).id = ex.id ∧
     (updatedRow ex k content tags (embed content) now).scope = ex.scope ∧
     (updatedRow ex k content tags (embed content) now).created_at = ex.created_at) ∧
    (∀ r ∈ db, r.id ≠ ex.id →
      r ∈ (storeSt db scope newId (some k) content tags now embed).1) ∧
    (storeSt db scope newId (some k) content tags now embed).2 =
      { id := ex.id, key := some k, content := content, tags := tags,
        createdAt := ex.created_at, updatedAt := now } := by
  have hex_mem : ex ∈ db := List.mem_of_find?_eq_some hfind
  have hex_p : keyMatch (normaliseScope scope) k ex := by
    simpa using List.find?_some hfind
  have hinj : ∀ r ∈ db, r.id = ex.id → r = ex := fun r hr h =>
    List.inj_on_of_nodup_map hids hr hex_mem h
  have hres1 : (storeSt db scope newId (some k) content tags now embed).1 =
      db.map (fun r => if r.id = ex.id then
        updatedRow r k content tags (embed content) now else r) := by
    simp [storeSt, hk, hfind, updatedRow]
  have hres2 : (storeSt db scope newId (some k) content tags now embed).2 =
      { id := ex.id, key := some k, content := content, tags := tags,
        createdAt := ex.created_at, updatedAt := now } := by
    simp [storeSt, hk, hfind, rowToEntry]
  refine ⟨by rw [hres1]; simp, ?_, ?_, ⟨rfl, rfl, rfl⟩, ?_, hres2⟩
  · rw [hres1, List.countP_map]
    have h1 : (db.map MemoryRow.id).countP (fun i => i == ex.id) = 1 := by
      rw [← List.count_eq_countP]
      exact List.count_eq_one_of_mem hids (List.mem_map_of_mem _ hex_mem)
    rw [List.countP_map] at h1
    rw [← h1]
    apply List.countP_congr
    intro r hr
    simp only [Function.comp_apply, decide_eq_true_eq, beq_iff_eq]
    by_cases h : r.id = ex.id
    · have hre : r = ex := hinj r hr h
      subst hre
      simp [h, updatedRow, keyMatch, hex_p.1]
    · simp only [if_neg h]
      constructor
      · intro hm
        exact absurd (congrArg MemoryRow.id (huniq r hr hm)) h
      · intro hm
        exact absurd hm h
  · rw [hres1]
    exact List.mem_map.mpr ⟨ex, hex_mem, by simp⟩
  · intro r hr hne
    rw [hres1]
    exact List.mem_map.mpr ⟨r, hr, by simp [hne]⟩

/-- A keyed row used by the upsert witness. -/
def keyedRow : MemoryRow :=
  { id := "m7", scope := "a", key := some "K", content := "old", tags := ["t"],
    embedding := some [2], created_at := 1, updated_at := 1 }

/-- Witness for C2: a second store under scope `"a"` with key `"k"`
(case-insensitively matching the stored `"K"`) mutates the single
existing row. -/
theorem store_upsert_semantics_witness :
    (storeSt [keyedRow] (some "a") "m8" (some "k") "new" [] 7 (fun _ => [3])).1.length =
      [keyedRow].length ∧
    (storeSt [keyedRow] (some "a") "m8" (some "k") "new" [] 7 (fun _ => [3])).1.countP
      (fun r => keyMatch (normaliseScope (some "a")) "k" r) = 1 ∧
    updatedRow keyedRow "k" "new" [] [3] 7 ∈
      (storeSt [keyedRow] (some "a") "m8" (some "k") "new" [] 7 (fun _ => [3])).1 ∧
    ((updatedRow keyedRow "k" "new" [] [3] 7).id = keyedRow.id ∧
     (updatedRow keyedRow "k" "new" [] [3] 7).scope = keyedRow.scope ∧
     (updatedRow keyedRow "k" "new" [] [3] 7).created_at = keyedRow.created_at) ∧
    (∀ r ∈ [keyedRow], r.id ≠ keyedRow.id →
      r ∈ (storeSt [keyedRow] (some "a") "m8" (some "k") "new" [] 7 (fun _ => [3])).1) ∧
    (storeSt [keyedRow] (some "a") "m8" (some "k") "new" [] 7 (fun _ => [3])).2 =
      { id := keyedRow.id, key := some "k", content := "new", tags := [],
        createdAt := keyedRow.created_at, updatedAt := 7 } :=
  store_upsert_semantics [keyedRow] (some "a") "m8" "k" "new" [] 7 (fun _ => [3])
    keyedRow (by decide) (by decide) (by decide) (by decide)

/- ─── C9 ────────────────────────────────────────────────────────────────── -/

/-- The two norm accumulators of the `cosineSimilarity` loop are sums of
squares, hence nonnegative. -/
theorem dotSums_norm_nonneg (a b : List ℚ) :
    0 ≤ (dotSums a b).2.1 ∧ 0 ≤ (dotSums a b).2.2 := by
  induction a generalizing b with
  | nil => simp [dotSums]
  | cons x xs ih =>
    cases b with
    | nil => simp [dotSums]
    | cons y ys =>
      obtain ⟨h1, h2⟩ := ih ys
      constructor
      · show 0 ≤ (dotSums xs ys).2.1 + x * x
        nlinarith [mul_self_nonneg x]
      · show 0 ≤ (dotSums xs ys).2.2 + y * y
        nlinarith [mul_self_nonneg y]

/-- Cauchy-Schwarz for the loop accumulators:
`dot^2 ≤ normA * normB`. -/
theorem dotSums_cauchy (a b : List ℚ) :
    (dotSums a b).1 ^ 2 ≤ (dotSums a b).2.1 * (dotSums a b).2.2 := by
  induction a generalizing b with
  | nil => simp [dotSums]
  | cons x xs ih =>
    cases b with
    | nil => simp [dotSums]
    | cons y ys =>
      have h := ih ys
      obtain ⟨hna, hnb⟩ := dotSums_norm_nonneg xs ys
      show ((dotSums xs ys).1 + x * y) ^ 2 ≤
        ((dotSums xs ys).2.1 + x * x) * ((dotSums xs ys).2.2 + y * y)
      nlinarith [h, hna, hnb, sq_nonneg ((dotSums xs ys).2.1 * y - (dotSums xs ys).1 * x),
        sq_nonneg ((dotSums xs ys).2.2 * x - (dotSums xs ys).1 * y),
        sq_nonneg ((dotSums xs ys).2.1 * (y * y) - (dotSums xs ys).2.2 * (x * x)),
        mul_nonneg (sub_nonneg.mpr h) (sq_nonneg (x * y)),
        mul_nonneg hna (sq_nonneg y), mul_nonneg hnb (sq_nonneg x),
        mul_nonneg hna hnb]

/-- On equal-length inputs, the norm accumulators of the loop are exactly the
squared L2 norms of the two vectors. -/
theorem dotSums_norms_eq (a b : List ℚ) (h : a.length = b.length) :
    (dotSums a b).2.1 = l2normSq a ∧ (dotSums a b).2.2 = l2normSq b := by
  induction a generalizing b with
  | nil =>
    cases b with
    | nil => simp [dotSums, l2normSq]
    | cons y ys => simp at h
  | cons x xs ih =>
    cases b with
    | nil => simp at h
    | cons y ys =>
      obtain ⟨h1, h2⟩ := ih ys (by simpa using h)
      constructor
      · show (dotSums xs ys).2.1 + x * x = l2normSq (x :: xs)
        simp only [l2normSq, List.map_cons, List.sum_cons] at *
        linarith
      · show (dotSums xs ys).2.2 + y * y = l2normSq (y :: ys)
        simp only [l2normSq, List.map_cons, List.sum_cons] at *
        linarith

/-- C9: for equal-length vectors the cosine similarity lies in
`[-1, 1]`; when either vector has zero L2 norm the score is exactly `0`
(the `denom === 0` guard, not NaN); and the function is deterministic —
equal inputs give equal outputs. -/
theorem cosineSimilarity_spec (a b : List ℚ) (h : a.length = b.length) :
    (-1 ≤ cosineSimilarity a b ∧ cosineSimilarity a b ≤ 1) ∧
    (l2normSq a = 0 ∨ l2normSq b = 0 → cosineSimilarity a b = 0) ∧
    (∀ a2 b2, a2 = a → b2 = b → cosineSimilarity a2 b2 = cosineSimilarity a b) := by
  obtain ⟨hla, hlb⟩ := dotSums_norms_eq a b h
  obtain ⟨hna, hnb⟩ := dotSums_norm_nonneg a b
  have hcs := dotSums_cauchy a b
  have hcos : cosineSimilarity a b =
      if Real.sqrt ((dotSums a b).2.1 : ℝ) * Real.sqrt ((dotSums a b).2.2 : ℝ) = 0
      then 0
      else ((dotSums a b).1 : ℝ) /
        (Real.sqrt ((dotSums a b).2.1 : ℝ) * Real.sqrt ((dotSums a b).2.2 : ℝ)) := rfl
  refine ⟨?_, ?_, ?_⟩
  · rw [hcos]
    by_cases hz : Real.sqrt ((dotSums a b).2.1 : ℝ) * Real.sqrt ((dotSums a b).2.2 : ℝ) = 0
    · rw [if_pos hz]
      norm_num
    · rw [if_neg hz]
      have hpos : 0 < Real.sqrt ((dotSums a b).2.1 : ℝ) * Real.sqrt ((dotSums a b).2.2 : ℝ) :=
        lt_of_le_of_ne (mul_nonneg (Real.sqrt_nonneg _) (Real.sqrt_nonneg _)) (Ne.symm hz)
      have h1 : (((dotSums a b).1 : ℝ)) ^ 2 ≤ ((dotSums a b).2.1 : ℝ) * ((dotSums a b).2.2 : ℝ) := by
        exact_mod_cast hcs
      have habs : |((dotSums a b).1 : ℝ)| ≤
          Real.sqrt ((dotSums a b).2.1 : ℝ) * Real.sqrt ((dotSums a b).2.2 : ℝ) := by
        calc |((dotSums a b).1 : ℝ)| = Real.sqrt (((dotSums a b).1 : ℝ) ^ 2) :=
              (Real.sqrt_sq_eq_abs _).symm
          _ ≤ Real.sqrt (((dotSums a b).2.1 : ℝ) * ((dotSums a b).2.2 : ℝ)) :=
              Real.sqrt_le_sqrt h1
          _ = Real.sqrt ((dotSums a b).2.1 : ℝ) * Real.sqrt ((dotSums a b).2.2 : ℝ) :=
              Real.sqrt_mul (by exact_mod_cast hna) _
      have h2 : |((dotSums a b).1 : ℝ) /
          (Real.sqrt ((dotSums a b).2.1 : ℝ) * Real.sqrt ((dotSums a b).2.2 : ℝ))| ≤ 1 := by
        rw [abs_div, abs_of_pos hpos]
        exact div_le_one_of_le₀ habs (le_of_lt hpos)
      exact abs_le.mp h2
  · intro hzero
    rw [hcos, if_pos]
    rcases hzero with h0 | h0
    · have : ((dotSums a b).2.1 : ℝ) = 0 := by
        rw [hla, h0]
        norm_num
      rw [this, Real.sqrt_zero, zero_mul]
    · have : ((dotSums a b).2.2 : ℝ) = 0 := by
        rw [hlb, h0]
        norm_num
      rw [this, Real.sqrt_zero, mul_zero]
  · intro a2 b2 h1 h2
    rw [h1, h2]

/-- Witness for C9 at the orthogonal pair `[1, 0]`, `[0, 1]`. -/
theorem cosineSimilarity_spec_witness :
    (-1 ≤ cosineSimilarity [1, 0] [0, 1] ∧ cosineSimilarity [1, 0] [0, 1] ≤ 1) ∧
    (l2normSq [1, 0] = 0 ∨ l2normSq [0, 1] = 0 → cosineSimilarity [1, 0] [0, 1] = 0) ∧
    (∀ a2 b2, a2 = [(1 : ℚ), 0] → b2 = [(0 : ℚ), 1] →
      cosineSimilarity a2 b2 = cosineSimilarity [1, 0] [0, 1]) :=
  cosineSimilarity_spec [1, 0] [0, 1] (by decide)

/- ─── Membership lemmas for the read paths ──────────────────────────────── -/

/-- A row is among the fetched candidates iff it is in the table and —
unless the raw scope is the wildcard — its scope equals the normalised
requested scope. -/
theorem mem_candidateRows_iff (db : List MemoryRow) (scope : Option String)
    (r : MemoryRow) :
    r ∈ candidateRows db scope ↔
      (r ∈ db ∧ (scope = some "*" ∨ r.scope = normaliseScope scope)) := by
  unfold candidateRows
  by_cases hs : scope = some "*"
  · simp [hs, (List.perm_insertionSort _ _).mem_iff]
  · simp [hs, (List.perm_insertionSort _ _).mem_iff, List.mem_filter]

/-- Membership in `list` output, characterised through the candidate
fetch and the tag filter. -/
theorem mem_list_iff (db : List MemoryRow) (scope : Option String)
    (tags : List String) (e : MemoryEntry) :
    e ∈ list db scope tags ↔
      ∃ r ∈ candidateRows db scope, hasAllTags r.tags tags = true ∧ rowToEntry r = e := by
  unfold list
  by_cases ht : tags = []
  · simp [ht, hasAllTags]
  · simp [ht, List.mem_filter]
    constructor
    · rintro ⟨r, ⟨hr, htg⟩, hre⟩
      exact ⟨r, hr, htg, hre⟩
    · rintro ⟨r, hr, htg, hre⟩
      exact ⟨r, ⟨hr, htg⟩, hre⟩

/-- Every entry returned by `retrieve` originates from a candidate row
that passed the tag filter and carries an embedding. -/
theorem mem_retrieve_source (db : List MemoryRow) (scope : Option String)
    (query : String) (tags : List String) (limit : ℕ)
    (embed : String → List ℚ) (e : MemoryEntry)
    (he : e ∈ retrieve db scope query tags limit embed) :
    ∃ r ∈ candidateRows db scope, hasAllTags r.tags tags = true ∧
      (∃ vec, r.embedding = some vec ∧
        rowToEntry r = e ∧
        e ∈ retrieve db scope query tags limit embed) := by
  unfold retrieve at he
  rcases List.mem_map.mp he with ⟨p, hp, hpe⟩
  have hp2 : p ∈ (scoredCandidates db scope query tags embed).insertionSort scoreDesc :=
    List.take_subset _ _ hp
  have hp3 : p ∈ scoredCandidates db scope query tags embed :=
    (List.perm_insertionSort _ _).mem_iff.mp hp2
  unfold scoredCandidates at hp3
  rcases List.mem_filterMap.mp hp3 with ⟨r, hr, hfr⟩
  by_cases htg : hasAllTags r.tags tags = true
  · refine ⟨r, hr, htg, ?_⟩
    rcases hemb : r.embedding with _ | vec
    · rw [if_pos htg, hemb] at hfr
      exact absurd hfr (by simp)
    · rw [if_pos htg, hemb] at hfr
      refine ⟨vec, rfl, ?_, he⟩
      have : rowToEntry r = p.1 := by
        rw [← Option.some_inj] at hfr
        cases hfr
        rfl
      rw [this, hpe]
  · rw [if_neg htg] at hfr
    exact absurd hfr (by simp)

/- ─── C6 ────────────────────────────────────────────────────────────────── -/

/-- C6: scope isolation and resolution.  A row stored under scope `A`
never surfaces (by id) from `list` or `retrieve` against a different
non-wildcard, non-empty scope `B`; it does surface under the wildcard
`"*"`; and a read whose scope is absent (`none`) or empty (`some ""`)
resolves to the `"global"` bucket only — every returned entry comes
from a row whose scope is `"global"`. -/
theorem scope_isolation (db : List MemoryRow) (A B q : String)
    (tags : List String) (lim : ℕ) (embed : String → List ℚ) (r : MemoryRow)
    (hr : r ∈ db) (hA : r.scope = A) (hAB : A ≠ B) (hBw : B ≠ "*") (hBe : B ≠ "")
    (hids : (db.map MemoryRow.id).Nodup) :
    (∀ e ∈ list db (some B) tags, e.id ≠ r.id) ∧
    (∀ e ∈ retrieve db (some B) q tags lim embed, e.id ≠ r.id) ∧
    (∃ e ∈ list db (some "*") [], e.id = r.id) ∧
    (∀ sc, sc = none ∨ sc = some "" →
      (∀ e ∈ list db sc tags, ∃ s ∈ db, s.scope = "global" ∧ s.id = e.id) ∧
      (∀ e ∈ retrieve db sc q tags lim embed,
        ∃ s ∈ db, s.scope = "global" ∧ s.id = e.id)) := by
  have hnB : normaliseScope (some B) = B := by simp [normaliseScope, hBe]
  have hinj : ∀ s ∈ db, s.id = r.id → s = r := fun s hs h =>
    List.inj_on_of_nodup_map hids hs hr h
  refine ⟨?_, ?_, ?_, ?_⟩
  · intro e he heq
    rcases (mem_list_iff db (some B) tags e).mp he with ⟨s, hs, _, hse⟩
    rcases ((mem_candidateRows_iff db (some B) s).mp hs).2 with hw | hsc
    · exact hBw (by simpa using hw)
    · have hsid : s.id = r.id := by
        rw [← heq, ← hse]
        rfl
      have : s = r := hinj s ((mem_candidateRows_iff db (some B) s).mp hs).1 hsid
      rw [this, hA, hnB] at hsc
      exact hAB hsc
  · intro e he heq
    rcases mem_retrieve_source db (some B) q tags lim embed e he with
      ⟨s, hs, _, _, _, hse, _⟩
    rcases ((mem_candidateRows_iff db (some B) s).mp hs).2 with hw | hsc
    · exact hBw (by simpa using hw)
    · have hsid : s.id = r.id := by
        rw [← heq, ← hse]
        rfl
      have : s = r := hinj s ((mem_candidateRows_iff db (some B) s).mp hs).1 hsid
      rw [this, hA, hnB] at hsc
      exact hAB hsc
  · refine ⟨rowToEntry r, ?_, rfl⟩
    exact (mem_list_iff db (some "*") [] (rowToEntry r)).mpr
      ⟨r, (mem_candidateRows_iff db (some "*") r).mpr ⟨hr, Or.inl rfl⟩,
       by simp [hasAllTags], rfl⟩
  · intro sc hsc0
    have hscw : sc ≠ some "*" := by
      rcases hsc0 with h | h <;> simp [h]
    have hscn : normaliseScope sc = "global" := by
      rcases hsc0 with h | h <;> simp [h, normaliseScope]
    constructor
    · intro e he
      rcases (mem_list_iff db sc tags e).mp he with ⟨s, hs, _, hse⟩
      obtain ⟨hsdb, hsc⟩ := (mem_candidateRows_iff db sc s).mp hs
      rcases hsc with hw | hsc
      · exact absurd hw hscw
      · rw [hscn] at hsc
        exact ⟨s, hsdb, hsc, by rw [← hse]; rfl⟩
    · intro e he
      rcases mem_retrieve_source db sc q tags lim embed e he with
        ⟨s, hs, _, _, _, hse, _⟩
      obtain ⟨hsdb, hsc⟩ := (mem_candidateRows_iff db sc s).mp hs
      rcases hsc with hw | hsc
      · exact absurd hw hscw
      · rw [hscn] at hsc
        exact ⟨s, hsdb, hsc, by rw [← hse]; rfl⟩

/-- Witness for C6 on a one-row table in project scope `"a"`, covering
both the absent and the empty requested scope. -/
theorem scope_isolation_witness :
    (∀ e ∈ list [projRow] (some "b") [], e.id ≠ projRow.id) ∧
    (∀ e ∈ retrieve [projRow] (some "b") "q" [] 20 (fun _ => [1]), e.id ≠ projRow.id) ∧
    (∃ e ∈ list [projRow] (some "*") [], e.id = projRow.id) ∧
    (∀ sc, sc = none ∨ sc = some "" →
      (∀ e ∈ list [projRow] sc [], ∃ s ∈ [projRow], s.scope = "global" ∧ s.id = e.id) ∧
      (∀ e ∈ retrieve [projRow] sc "q" [] 20 (fun _ => [1]),
        ∃ s ∈ [projRow], s.scope = "global" ∧ s.id = e.id)) :=
  scope_isolation [projRow] "a" "b" "q" [] 20 (fun _ => [1]) projRow
    (by simp) rfl (by decide) (by decide) (by decide) (by decide)

/- ─── C7 ────────────────────────────────────────────────────────────────── -/

/-- C7: a legacy row without an embedding is never returned by
`retrieve` (for any scope, query, tags or limit), but is returned by
`list` whenever it passes the scope and tag filters. -/
theorem legacy_rows (db : List MemoryRow) (r : MemoryRow)
    (hr : r ∈ db) (hemb : r.embedding = none)
    (hids : (db.map MemoryRow.id).Nodup) :
    (∀ scope q tags lim embed, ∀ e ∈ retrieve db scope q tags lim embed, e.id ≠ r.id) ∧
    (∀ scope tags, (scope = some "*" ∨ r.scope = normaliseScope scope) →
      hasAllTags r.tags tags = true → rowToEntry r ∈ list db scope tags) := by
  constructor
  · intro scope q tags lim embed e he heq
    rcases mem_retrieve_source db scope q tags lim embed e he with
      ⟨s, hs, _, vec, hvec, hse, _⟩
    have hsid : s.id = r.id := by
      rw [← heq, ← hse]
      rfl
    have hsr : s = r :=
      List.inj_on_of_nodup_map hids ((mem_candidateRows_iff db scope s).mp hs).1 hr hsid
    rw [hsr, hemb] at hvec
    exact Option.noConfusion hvec
  · intro scope tags hsc htags
    exact (mem_list_iff db scope tags (rowToEntry r)).mpr
      ⟨r, (mem_candidateRows_iff db scope r).mpr ⟨hr, hsc⟩, htags, rfl⟩

/-- Witness for C7 on a one-row table whose row has no embedding. -/
theorem legacy_rows_witness :
    (∀ scope q tags lim embed,
      ∀ e ∈ retrieve [globalRow] scope q tags lim embed, e.id ≠ globalRow.id) ∧
    (∀ scope tags, (scope = some "*" ∨ globalRow.scope = normaliseScope scope) →
      hasAllTags globalRow.tags tags = true →
      rowToEntry globalRow ∈ list [globalRow] scope tags) :=
  legacy_rows [globalRow] globalRow (by simp) rfl (by decide)

/- ─── C5 ────────────────────────────────────────────────────────────────── -/

/-- The scored candidate list after the `retrieve` sort
`scored.sort((a, b) => b.score - a.score)`. -/
noncomputable def sortedScored (db : List MemoryRow) (scope : Option String)
    (query : String) (tags : List String) (embed : String → List ℚ) :
    List (MemoryEntry × ℝ) :=
  (scoredCandidates db scope query tags embed).insertionSort scoreDesc

/-- C5: `retrieve` returns at most `limit` entries; its output is the
`limit`-prefix of the score-sorted candidates; the sorted list is a
permutation of the candidates, is pairwise non-increasing in score
(so a strictly higher cosine similarity always ranks strictly earlier),
positionally the emitted prefix is non-increasing, and every dropped
candidate scores no higher than any emitted one — the output is exactly
the highest-scoring candidates.  The tool-layer zod schema supplies the
default limit 20 and rejects limits above the hard cap 100. -/
theorem retrieve_ordering_limit (db : List MemoryRow) (scope : Option String)
    (query : String) (tags : List String) (limit : ℕ) (embed : String → List ℚ) :
    (retrieve db scope query tags limit embed).length ≤ limit ∧
    retrieve db scope query tags limit embed =
      ((sortedScored db scope query tags embed).take limit).map (fun s => s.1) ∧
    (sortedScored db scope query tags embed).Perm
      (scoredCandidates db scope query tags embed) ∧
    (sortedScored db scope query tags embed).Pairwise scoreDesc ∧
    (∀ i j : Fin ((sortedScored db scope query tags embed).take limit).length, i < j →
      (((sortedScored db scope query tags embed).take limit).get j).2 ≤
      (((sortedScored db scope query tags embed).take limit).get i).2) ∧
    (∀ p ∈ (sortedScored db scope query tags embed).drop limit,
     ∀ q ∈ (sortedScored db scope query tags embed).take limit, p.2 ≤ q.2) ∧
    retrieveLimitValid none = some 20 ∧
    (∀ n, 100 < n → retrieveLimitValid (some n) = none) := by
  have hsorted : (sortedScored db scope query tags embed).Pairwise scoreDesc :=
    List.sorted_insertionSort scoreDesc _
  refine ⟨?_, rfl, List.perm_insertionSort scoreDesc _, hsorted, ?_, ?_, rfl, ?_⟩
  · unfold retrieve
    simp [List.length_take]
  · intro i j hij
    have htk : ((sortedScored db scope query tags embed).take limit).Pairwise scoreDesc :=
      List.Pairwise.sublist (List.take_sublist _ _) hsorted
    exact List.pairwise_iff_get.mp htk i j hij
  · intro p hp q hq
    have hsplit := (List.take_append_drop limit
      (sortedScored db scope query tags embed)).symm
    rw [hsplit] at hsorted
    exact (List.pairwise_append.mp hsorted).2.2 q hq p hp
  · intro n hn
    simp [retrieveLimitValid]
    omega

/-- Witness for C5 at a concrete call. -/
theorem retrieve_ordering_limit_witness :
    (retrieve [projRow] none "q" [] 2 (fun _ => [1])).length ≤ 2 :=
  (retrieve_ordering_limit [projRow] none "q" [] 2 (fun _ => [1])).1

/- ─── C8 ────────────────────────────────────────────────────────────────── -/

/-- Inserting into the score-sorted list keeps the relative order of any
fixed score class: elements passed over by `orderedInsert` score
strictly higher than the inserted element, so the inserted element lands
before every element of its own score class. -/
theorem orderedInsert_filter_score (a : MemoryEntry × ℝ)
    (l : List (MemoryEntry × ℝ)) (s : ℝ) :
    (l.orderedInsert scoreDesc a).filter (fun p => p.2 = s) =
      if a.2 = s then a :: l.filter (fun p => p.2 = s)
      else l.filter (fun p => p.2 = s) := by
  rw [List.orderedInsert_eq_take_drop]
  rw [List.filter_append]
  have htake : (l.takeWhile fun b => decide ¬scoreDesc a b).filter
      (fun p => p.2 = s) = [] ∨ a.2 ≠ s := by
    by_cases ha : a.2 = s
    · left
      rw [List.filter_eq_nil_iff]
      intro b hb
      have hb2 : ¬ scoreDesc a b := by simpa using List.mem_takeWhile_imp hb
      have : a.2 < b.2 := lt_of_not_le hb2
      simp only [decide_eq_true_eq]
      intro hbs
      rw [ha] at this
      rw [hbs] at this
      exact lt_irrefl s this
    · right
      exact ha
  have hsplit : l.filter (fun p => p.2 = s) =
      (l.takeWhile fun b => decide ¬scoreDesc a b).filter (fun p => p.2 = s) ++
      (l.dropWhile fun b => decide ¬scoreDesc a b).filter (fun p => p.2 = s) := by
    rw [← List.filter_append, List.takeWhile_append_dropWhile]
  by_cases ha : a.2 = s
  · rcases htake with h0 | h0
    · rw [if_pos ha, hsplit, h0]
      simp [List.filter_cons, ha]
    · exact absurd ha h0
  · rw [if_neg ha, hsplit]
    simp [List.filter_cons, ha]

/-- Stability of the similarity sort: within any single score value, the
sorted list preserves the candidate scan order. -/
theorem insertionSort_stable_score (l : List (MemoryEntry × ℝ)) (s : ℝ) :
    (l.insertionSort scoreDesc).filter (fun p => p.2 = s) =
      l.filter (fun p => p.2 = s) := by
  induction l with
  | nil => rfl
  | cons a t ih =>
    show ((t.insertionSort scoreDesc).orderedInsert scoreDesc a).filter _ = _
    rw [orderedInsert_filter_score, ih]
    by_cases ha : a.2 = s
    · simp [List.filter_cons, ha]
    · simp [List.filter_cons, ha]

/-- Rows with identical content but distinct update times, used to
exhibit the tie-break order. -/
def tieRow1 : MemoryRow :=
  { id := "t1", scope := "global", key := none, content := "c1", tags := [],
    embedding := some [1], created_at := 1, updated_at := 1 }

/-- The newer of the two tied rows; it sits later in table order. -/
def tieRow2 : MemoryRow :=
  { id := "t2", scope := "global", key := none, content := "c2", tags := [],
    embedding := some [1], created_at := 2, updated_at := 2 }

/-- Counterexample to C8 as stated: the two candidates have identical
embeddings, hence exactly equal similarity to any query, yet `retrieve`
returns them in the opposite of table order — the candidate scan is
`ORDER BY updated_at DESC`, not table order, and the stable score sort
preserves that scan order for ties. -/
theorem retrieve_tiebreak_counterexample :
    retrieve [tieRow1, tieRow2] none "q" [] 20 (fun _ => [1]) =
      [rowToEntry tieRow2, rowToEntry tieRow1] ∧
    [tieRow1, tieRow2].map rowToEntry = [rowToEntry tieRow1, rowToEntry tieRow2] ∧
    rowToEntry tieRow1 ≠ rowToEntry tieRow2 := by
  have hcos : cosineSimilarity [1] [1] = 1 := by
    have hd : dotSums [1] [1] = (1, 1, 1) := by norm_num [dotSums]
    rw [show cosineSimilarity [1] [1] =
        (if Real.sqrt (((dotSums [1] [1]).2.1 : ℚ) : ℝ) *
            Real.sqrt (((dotSums [1] [1]).2.2 : ℚ) : ℝ) = 0 then (0 : ℝ)
         else (((dotSums [1] [1]).1 : ℚ) : ℝ) /
           (Real.sqrt (((dotSums [1] [1]).2.1 : ℚ) : ℝ) *
            Real.sqrt (((dotSums [1] [1]).2.2 : ℚ) : ℝ))) from rfl, hd]
    norm_num
  have hcand : candidateRows [tieRow1, tieRow2] none = [tieRow2, tieRow1] := by
    simp [candidateRows, normaliseScope, List.insertionSort, List.orderedInsert,
      byUpdatedDesc, tieRow1, tieRow2, List.filter]
  have hsc : scoredCandidates [tieRow1, tieRow2] none "q" [] (fun _ => [1]) =
      [(rowToEntry tieRow2, (1 : ℝ)), (rowToEntry tieRow1, (1 : ℝ))] := by
    unfold scoredCandidates
    rw [hcand]
    simp only [List.filterMap_cons, List.filterMap_nil]
    norm_num [tieRow1, tieRow2, hasAllTags, hcos]
  refine ⟨?_, by simp, by simp [rowToEntry, tieRow1, tieRow2]⟩
  unfold retrieve
  rw [hsc]
  have hsort : List.insertionSort scoreDesc
      [(rowToEntry tieRow2, (1 : ℝ)), (rowToEntry tieRow1, (1 : ℝ))] =
      [(rowToEntry tieRow2, (1 : ℝ)), (rowToEntry tieRow1, (1 : ℝ))] := by
    simp [List.insertionSort, List.orderedInsert, scoreDesc]
  rw [hsort]
  simp

/-- C8 amended: when two candidates tie on similarity, their relative
order in the sorted output is the candidate scan order — which is the
`ORDER BY updated_at DESC` recency order of the SQL fetch, not raw
table order — and taking the `limit` prefix preserves it. -/
theorem retrieve_tiebreak_amended (db : List MemoryRow) (scope : Option String)
    (query : String) (tags : List String) (limit : ℕ)
    (embed : String → List ℚ) (s : ℝ) :
    (sortedScored db scope query tags embed).filter (fun p => p.2 = s) =
      (scoredCandidates db scope query tags embed).filter (fun p => p.2 = s) ∧
    (candidateRows db scope).Pairwise byUpdatedDesc ∧
    ((sortedScored db scope query tags embed).take limit).filter (fun p => p.2 = s) <+:
      (sortedScored db scope query tags embed).filter (fun p => p.2 = s) := by
  refine ⟨insertionSort_stable_score _ s, ?_, ?_⟩
  · unfold candidateRows
    by_cases hs : scope = some "*"
    · rw [if_pos hs]
      exact List.sorted_insertionSort byUpdatedDesc _
    · rw [if_neg hs]
      exact List.sorted_insertionSort byUpdatedDesc _
  · refine ⟨((sortedScored db scope query tags embed).drop limit).filter
      (fun p => p.2 = s), ?_⟩
    rw [← List.filter_append, List.take_append_drop]
